import Mathlib

/-!
# Verification of `rashtriyametal_downloader.py`

A shallow embedding, in Lean 4, of the decision logic of the
Rashtriya-Metal circular downloader: the date heuristics
(`extract_date_from_text` and the filename ranking inside
`fetch_latest_pdf_url`), the pdfplumber fallback table extraction
(`fallback_extract_table_with_pdfplumber`), the Excel ledger merge
(`append_table_to_excel`), the URL checkpoint log (`write_url_log`,
`read_last_logged_url`) and the run controller (`main`).

External collaborators (HTTP fetch, BeautifulSoup link scraping, pdfplumber
text extraction, Camelot table extraction, the wall clock) are modelled as
inputs: a run is a pure function of the discovered URL, the extracted page
texts, the optional Camelot result and the timestamp, together with the
state of the two spreadsheet files.

DataFrame cells are `Option String` (`none` models pandas `NaN`); Python's
`str(...)` of a cell is `pyStr` (`str(nan) = "nan"`).  The regex searches of
the source are compiled by hand into scanning functions on `List Char`;
for every pattern of the source, adjacent tokens have disjoint character
classes, so the greedy, leftmost-match semantics of `re.search` reduces to
the run-based matching implemented here (comments at each matcher).
-/

set_option maxRecDepth 2048

namespace RMIL

/-! ## Character classes (Python `re` semantics on the relevant inputs) -/

/-- `\d` of Python `re` (ASCII digits suffice for the inputs involved). -/
def isDigitC (c : Char) : Bool := '0' ≤ c && c ≤ '9'

/-- `[A-Za-z]`. -/
def isAlphaC (c : Char) : Bool := ('a' ≤ c && c ≤ 'z') || ('A' ≤ c && c ≤ 'Z')

/-- `\s` of Python `re` / `str.isspace` (the whitespace code points that can
realistically occur in the scraped inputs). -/
def isSpaceC (c : Char) : Bool :=
  c = ' ' || c = '\t' || c = '\n' || c = '\r' || c = '\x0b' || c = '\x0c' ||
  c = '\x1c' || c = '\x1d' || c = '\x1e' || c = '\x1f' || c = '\x85' || c = '\xa0'

/-- Numeric value of a digit string, e.g. for the captured regex groups. -/
def natOfDigits (l : List Char) : Nat := l.foldl (fun n c => n * 10 + (c.toNat - 48)) 0

/-- Python `str.strip()`: remove leading and trailing whitespace. -/
def pyStrip (s : String) : String :=
  ⟨((s.data.dropWhile isSpaceC).reverse.dropWhile isSpaceC).reverse⟩

/-- `str.lower()` on the ASCII letters involved. -/
def lowerStr (l : List Char) : List Char := l.map Char.toLower

/-! ## Dates

`datetime` values are triples; `datetime.strptime` validates the calendar
date (including leap years) and raises on an invalid one, which the source
always catches and turns into "no candidate", hence `mkDate?`. -/

/-- A `datetime.date`: the source never uses the time-of-day part. -/
structure PDate where
  y : Nat
  m : Nat
  d : Nat
deriving DecidableEq, Repr

/-- Chronological order of valid dates as a single `Nat` (months `≤ 12` and
days `≤ 31` are below the radix, so this is the lexicographic order). -/
def PDate.key (a : PDate) : Nat := a.y * 10000 + a.m * 100 + a.d

/-- Gregorian leap year, as `calendar`/`datetime` implement it. -/
def isLeap (y : Nat) : Bool := y % 4 == 0 && (y % 100 != 0 || y % 400 == 0)

def daysInMonth (y m : Nat) : Nat :=
  if m = 2 then (if isLeap y then 29 else 28)
  else if m = 4 || m = 6 || m = 9 || m = 11 then 30
  else 31

/-- `datetime.MINYEAR = 1`, `MAXYEAR = 9999`. -/
def validDate (y m d : Nat) : Bool :=
  1 ≤ y && y ≤ 9999 && 1 ≤ m && m ≤ 12 && 1 ≤ d && d ≤ daysInMonth y m

/-- Build a date the way `datetime.strptime` does: an out-of-range component
raises `ValueError`, which every caller in the source swallows (`none`).

For the numeric formats used by the source (`%d`, `%m` on 1-2 digit groups
and the fixed-width `%d%m%Y` / `%Y%m%d` strings) the `_strptime` regular
expressions accept a group exactly when its numeric value is in range
(`1..31` resp. `1..12`; `"0"`/`"00"` match no alternative, and a value out
of range either matches no alternative or leaves unconverted data), so the
range checks of `validDate` are exactly the accepted inputs. -/
def mkDate? (y m d : Nat) : Option PDate :=
  if validDate y m d then some ⟨y, m, d⟩ else none

def pad2 (n : Nat) : String := if n < 10 then "0" ++ toString n else toString n

/-- `strftime("%Y-%m-%d")` for the years `20xx` the source produces. -/
def isoOf (dt : PDate) : String := toString dt.y ++ "-" ++ pad2 dt.m ++ "-" ++ pad2 dt.d

/-! ## The three date regexes of `extract_date_from_text` (lines 140-144)

In each pattern, every quantified token is followed by a token whose
character class is disjoint from it (`\d{1,2}` by `[/\-]`, `\s` or `,`;
`[A-Za-z]{3,9}` by `\s`; `\s+`/`\s*` by a digit or letter), so greedy
matching with backtracking succeeds at a position iff the maximal run of
each class fits the quantifier bounds exactly; `re.search` then returns the
leftmost such position. -/

def digitRun (l : List Char) : Nat := (l.takeWhile isDigitC).length
def alphaRun (l : List Char) : Nat := (l.takeWhile isAlphaC).length
def spaceRun (l : List Char) : Nat := (l.takeWhile isSpaceC).length

/-- `(\d{1,2})` followed by a non-digit token: the digit run must have
length 1 or 2 (a longer run makes every backtracking alternative fail). -/
def digits12 (l : List Char) : Option (List Char × List Char) :=
  let r := digitRun l
  if r = 1 || r = 2 then some (l.take r, l.drop r) else none

/-- `([A-Za-z]{3,9})` followed by a non-letter token. -/
def letters39 (l : List Char) : Option (List Char × List Char) :=
  let r := alphaRun l
  if 3 ≤ r && r ≤ 9 then some (l.take r, l.drop r) else none

/-- `\s+` followed by a non-space token. -/
def spaces1 (l : List Char) : Option (List Char) :=
  let r := spaceRun l
  if 1 ≤ r then some (l.drop r) else none

/-- `\s*` followed by a non-space token. -/
def spaces0 (l : List Char) : List Char := l.drop (spaceRun l)

/-- `[/\-]`. -/
def sepSD (l : List Char) : Option (List Char) :=
  match l with
  | c :: rest => if c = '/' || c = '-' then some rest else none
  | [] => none

/-- `(20\d{2})`. -/
def year20 (l : List Char) : Option (List Char) :=
  match l with
  | '2' :: '0' :: a :: b :: _ => if isDigitC a && isDigitC b then some ['2', '0', a, b] else none
  | _ => none

/-- `,`. -/
def litComma (l : List Char) : Option (List Char) :=
  match l with
  | ',' :: rest => some rest
  | [] => none
  | _ :: _ => none

/-- Match `(\d{1,2})[/\-](\d{1,2})[/\-](20\d{2})` at the head of `l`. -/
def matchP1At (l : List Char) : Option (List Char × List Char × List Char) := do
  let (g1, l1) ← digits12 l
  let l2 ← sepSD l1
  let (g2, l3) ← digits12 l2
  let l4 ← sepSD l3
  let g3 ← year20 l4
  pure (g1, g2, g3)

/-- Match `(\d{1,2})\s+([A-Za-z]{3,9})\s+(20\d{2})` at the head of `l`. -/
def matchP2At (l : List Char) : Option (List Char × List Char × List Char) := do
  let (g1, l1) ← digits12 l
  let l2 ← spaces1 l1
  let (g2, l3) ← letters39 l2
  let l4 ← spaces1 l3
  let g3 ← year20 l4
  pure (g1, g2, g3)

/-- Match `([A-Za-z]{3,9})\s+(\d{1,2}),\s*(20\d{2})` at the head of `l`. -/
def matchP3At (l : List Char) : Option (List Char × List Char × List Char) := do
  let (g1, l1) ← letters39 l
  let l2 ← spaces1 l1
  let (g2, l3) ← digits12 l2
  let l4 ← litComma l3
  let g3 ← year20 (spaces0 l4)
  pure (g1, g2, g3)

/-- `re.search`: try the pattern at every position, left to right. -/
def searchPos (f : List Char → Option α) : List Char → Option α
  | [] => none
  | c :: rest => ((f (c :: rest)).orElse (fun _ => searchPos f rest))

/-- The month abbreviations `strptime`'s `%b` accepts (C locale), matched
case-insensitively; a longer captured month name such as `"October"` makes
`strptime` fail with unconverted data, so only an exact 3-letter
abbreviation yields a date. -/
def monthAbbrev? (tok : List Char) : Option Nat :=
  let t := lowerStr tok
  if t = "jan".data then some 1 else if t = "feb".data then some 2
  else if t = "mar".data then some 3 else if t = "apr".data then some 4
  else if t = "may".data then some 5 else if t = "jun".data then some 6
  else if t = "jul".data then some 7 else if t = "aug".data then some 8
  else if t = "sep".data then some 9 else if t = "oct".data then some 10
  else if t = "nov".data then some 11 else if t = "dec".data then some 12
  else none

/-- Candidate from pattern 1, `strptime("%d-%m-%Y")` applied to the groups
of the first match (parse failure discarded, line 155-156). -/
def cand1 (text : String) : Option PDate :=
  match searchPos matchP1At text.data with
  | some (g1, g2, g3) => mkDate? (natOfDigits g3) (natOfDigits g2) (natOfDigits g1)
  | none => none

/-- Candidate from pattern 2, `strptime("%d %b %Y")`. -/
def cand2 (text : String) : Option PDate :=
  match searchPos matchP2At text.data with
  | some (g1, g2, g3) =>
    match monthAbbrev? g2 with
    | some mv => mkDate? (natOfDigits g3) mv (natOfDigits g1)
    | none => none
  | none => none

/-- Candidate from pattern 3, `strptime("%b %d, %Y")`. -/
def cand3 (text : String) : Option PDate :=
  match searchPos matchP3At text.data with
  | some (g1, g2, g3) =>
    match monthAbbrev? g1 with
    | some mv => mkDate? (natOfDigits g3) mv (natOfDigits g2)
    | none => none
  | none => none

/-- The `date_candidates` list built by the loop at lines 139-156: at most
one candidate per pattern, in pattern order. -/
def date_candidates (text : String) : List PDate :=
  [cand1 text, cand2 text, cand3 text].filterMap id

/-- Python `max` over a nonempty list: keeps the current value on ties, so
the first maximal element wins (all our candidates compare by `key`). -/
def maxDate (c : PDate) (cs : List PDate) : PDate :=
  cs.foldl (fun a b => if a.key < b.key then b else a) c

/-- Match `(\d{2})(\d{2})(20\d{2})` at the head of `l` (fixed width, mid
chars `"20"`). -/
def matchFBAt (l : List Char) : Option (List Char × List Char × List Char) :=
  match l with
  | a :: b :: c :: d :: '2' :: '0' :: e :: f :: _ =>
    if isDigitC a && isDigitC b && isDigitC c && isDigitC d && isDigitC e && isDigitC f then
      some ([a, b], [c, d], ['2', '0', e, f])
    else none
  | _ => none

/-- `re.search(r'(\d{2})(\d{2})(20\d{2})', fallback_from_name)` (line 162). -/
def searchFB (l : List Char) : Option (List Char × List Char × List Char) :=
  searchPos matchFBAt l

/-- `extract_date_from_text(text, fallback_from_name)` (lines 137-169):
maximum of the per-pattern candidates, else the `ddmmyyyy` filename
fallback, else `""`.  `fallback_from_name` is `None` or a string; Python
treats `""` as falsy. -/
def extract_date_from_text (text : String) (fallback_from_name : Option String) : String :=
  match date_candidates text with
  | c :: cs => isoOf (maxDate c cs)
  | [] =>
    match fallback_from_name with
    | some fb =>
      if fb = "" then ""
      else
        match searchFB fb.data with
        | some (g1, g2, g3) =>
          match mkDate? (natOfDigits g3) (natOfDigits g2) (natOfDigits g1) with
          | some dt => isoOf dt
          | none => ""
        | none => ""
    | none => ""

/-! ## Filename ranking inside `fetch_latest_pdf_url` (lines 71-91) -/

/-- Match `(\d{2})(\d{2})(\d{4})` at the head: eight consecutive digits. -/
def matchAAt (l : List Char) : Option (List Char × List Char × List Char) :=
  match l with
  | a :: b :: c :: d :: e :: f :: g :: h :: _ =>
    if isDigitC a && isDigitC b && isDigitC c && isDigitC d &&
       isDigitC e && isDigitC f && isDigitC g && isDigitC h then
      some ([a, b], [c, d], [e, f, g, h])
    else none
  | _ => none

/-- Match `(20\d{2})(\d{2})(\d{2})` at the head. -/
def matchBAt (l : List Char) : Option (List Char × List Char × List Char) :=
  match l with
  | '2' :: '0' :: a :: b :: c :: d :: e :: f :: _ =>
    if isDigitC a && isDigitC b && isDigitC c && isDigitC d && isDigitC e && isDigitC f then
      some (['2', '0', a, b], [c, d], [e, f])
    else none
  | _ => none

def searchA (l : List Char) : Option (List Char × List Char × List Char) := searchPos matchAAt l

def searchB (l : List Char) : Option (List Char × List Char × List Char) := searchPos matchBAt l

/-- Lines 75-85: `re.search(ddmmyyyy) or re.search(yyyymmdd)`, then
`strptime` under `%Y%m%d` when the first captured group has four digits
(only pattern B makes one) and `%d%m%Y` otherwise; a parse failure drops
the link (`except: pass`). -/
def fnameDate (fname : String) : Option PDate :=
  match searchA fname.data with
  | some (g1, g2, g3) => mkDate? (natOfDigits g3) (natOfDigits g2) (natOfDigits g1)
  | none =>
    match searchB fname.data with
    | some (g1, g2, g3) => mkDate? (natOfDigits g1) (natOfDigits g2) (natOfDigits g3)
    | none => none

/-! ## `urlparse(u).path` and `os.path.basename` (line 74) -/

/-- Characters allowed in a URL scheme by `urllib.parse`. -/
def schemeChar (c : Char) : Bool := isAlphaC c || isDigitC c || c = '+' || c = '-' || c = '.'

def idxOfColon : List Char → Option Nat
  | [] => none
  | c :: l => if c = ':' then some 0 else (idxOfColon l).map (· + 1)

/-- `urlsplit`: strip `scheme:` when the part before the first `:` is a
nonempty run of scheme characters starting with a letter. -/
def stripScheme (l : List Char) : List Char :=
  match idxOfColon l with
  | some i =>
    if 0 < i then
      match l.take i with
      | c :: pre => if isAlphaC c && (c :: pre).all schemeChar then l.drop (i + 1) else l
      | [] => l
    else l
  | none => l

/-- `urlsplit`: after the scheme, `//netloc` extends to the next `/`, `?`
or `#`. -/
def stripNetloc (l : List Char) : List Char :=
  match l with
  | '/' :: '/' :: rest => rest.dropWhile (fun c => !(c = '/' || c = '?' || c = '#'))
  | _ => l

/-- `urlparse(u).path`: fragment off (first `#`), scheme off, netloc off,
query off (first `?`). -/
def urlPath (u : String) : List Char :=
  (stripNetloc (stripScheme (u.data.takeWhile (fun c => c ≠ '#')))).takeWhile (fun c => c ≠ '?')

/-- `os.path.basename(urlparse(u).path)`: the part after the last slash. -/
def basenameOfUrl (u : String) : String :=
  ⟨((urlPath u).reverse.takeWhile (fun c => c ≠ '/')).reverse⟩

/-- Date score of a link (line 74-85). -/
def fileDateOfUrl (u : String) : Option PDate := fnameDate (basenameOfUrl u)

/-- One step of `list.sort(key=..., reverse=True)` modelled as a stable
descending insertion: `x` goes in front of the first element whose key is
`≤` its own, so among equal keys the element earlier in the original list
stays earlier — exactly the stability guarantee of Python's sort. -/
def insertDated (x : PDate × String) : List (PDate × String) → List (PDate × String)
  | [] => [x]
  | y :: ys => if y.1.key ≤ x.1.key then x :: y :: ys else y :: insertDated x ys

/-- `dated.sort(key=lambda x: x[0], reverse=True)`. -/
def sortDatedDesc (l : List (PDate × String)) : List (PDate × String) :=
  l.foldr insertDated []

/-- The pure part of `fetch_latest_pdf_url` (lines 68-91): given the list
of candidate links scraped from the page (in page order), raise
`RuntimeError` (`none`) when empty, else return the dated link with the
latest filename date, falling back to the first link. -/
def fetch_latest_pdf_url (links : List String) : Option String :=
  if links.isEmpty then none
  else
    let dated := links.filterMap (fun u => (fileDateOfUrl u).map (fun d => (d, u)))
    match sortDatedDesc dated with
    | (_, u) :: _ => some u
    | [] => links.head?

/-- `“no date, or a date strictly before d”` — a decidable form used to
state the ranking property. -/
def keyLtB : Option PDate → PDate → Bool
  | none, _ => true
  | some e, d => e.key < d.key

/-- `“no date, or a date at most d”`. -/
def keyLeB : Option PDate → PDate → Bool
  | none, _ => true
  | some e, d => e.key ≤ d.key

/-! ## DataFrames and the two spreadsheet files

A pandas `DataFrame` is a column-name list plus rows of cells; a cell is
`Option String` with `none` for `NaN` (an empty Excel cell reads back as
`NaN`; a `None`-filled column behaves the same way here).  The store holds
the frames as last written; Excel round-trip type coercion is outside the
model.  A spreadsheet file on disk is missing, unreadable (`pd.read_excel`
raises) or a readable frame. -/

abbrev Cell := Option String

structure DF where
  cols : List String
  rows : List (List Cell)
deriving DecidableEq, Repr

inductive XFile where
  | missing
  | corrupt
  | ok (df : DF)
deriving DecidableEq, Repr

deriving instance DecidableEq for Except

/-- Python `str(...)` of a cell: `str(nan) = "nan"`. -/
def pyStr : Cell → String
  | none => "nan"
  | some s => s

/-- `df.astype(str).agg("|".join, axis=1)` for one row: stringify every
cell and join with `"|"` in column order. -/
def rowKeyStr (r : List Cell) : String := String.intercalate "|" (r.map pyStr)

/-- First index of a column name (pandas label lookup). -/
def idxOf' (c : String) : List String → Option Nat
  | [] => none
  | a :: l => if a = c then some 0 else (idxOf' c l).map (· + 1)

/-- The cell of row `r` under column `c` of a frame with columns `cols`
(`none` when the label is absent — callers guard label existence the way
the source does). -/
def cellOf (cols : List String) (r : List Cell) (c : String) : Cell :=
  match idxOf' c cols with
  | some i => r.getD i none
  | none => none

/-- Reindex one row from `cols` to `target` by label, `NaN` for new labels —
what `pd.concat` does to align frames. -/
def reindexRow (cols target : List String) (r : List Cell) : List Cell :=
  target.map (fun c => cellOf cols r c)

/-- `pd.concat([a, b], ignore_index=True)`: the union of the columns in
order of first appearance; rows aligned by label, `NaN` where absent. -/
def concatAligned (a b : DF) : DF :=
  let target := a.cols ++ b.cols.filter (fun c => decide (c ∉ a.cols))
  ⟨target, a.rows.map (reindexRow a.cols target) ++ b.rows.map (reindexRow b.cols target)⟩

/-- `df[name] = vals`: overwrite the column if the label exists, else
append it at the end (pandas column assignment). -/
def DF.setCol (df : DF) (name : String) (vals : List Cell) : DF :=
  match idxOf' name df.cols with
  | some i => ⟨df.cols, (df.rows.zip vals).map (fun p => p.1.set i p.2)⟩
  | none => ⟨df.cols ++ [name], (df.rows.zip vals).map (fun p => p.1 ++ [p.2])⟩

/-- `df[cs]` column selection / reordering. -/
def DF.select (df : DF) (cs : List String) : DF :=
  ⟨cs, df.rows.map (reindexRow df.cols cs)⟩

/-- `drop_duplicates` keeps a row iff its key was not seen earlier
(pandas default `keep='first'`; `NaN` keys compare equal). -/
def dedupAux (f : α → β) [DecidableEq β] (seen : List β) : List α → List α
  | [] => []
  | x :: xs => if f x ∈ seen then dedupAux f seen xs else x :: dedupAux f (f x :: seen) xs

def dedupFirstBy (f : α → β) [DecidableEq β] (l : List α) : List α := dedupAux f [] l

/-- The dedup key of a `combo` row: the `pdf_url` and `_row_key` cells
(line 277, `subset=["pdf_url", "_row_key"]`). -/
def rowKeyPair (cols : List String) (r : List Cell) : Cell × Cell :=
  (cellOf cols r "pdf_url", cellOf cols r "_row_key")

/-! ## `append_table_to_excel` (lines 254-291) -/

def EXCEL_TABLE : String := "RMIL_Table.xlsx"
def EXCEL_URL_LOG : String := "RMIL_Price_Log.xlsx"

/-- Lines 265-270: copy, insert `circular_date` at 0 and `pdf_url` at 1
(`df.insert` raises `ValueError` when the label already exists — callers
never hit this, but the run would abort, so it is kept as a guard). -/
def enrich_new (d0 : DF) (pdf_url circular_date : String) : DF :=
  ⟨"circular_date" :: "pdf_url" :: d0.cols,
   d0.rows.map (fun r => some circular_date :: some pdf_url :: r)⟩

/-- Line 270 resp. 275: assign `_row_key` from the current cells. -/
def with_row_key (df : DF) : DF :=
  DF.setCol df "_row_key" (df.rows.map (fun r => some (rowKeyStr r)))

/-- Lines 274-275: recompute `_row_key` on the frame read from disk only
when the column is absent. -/
def prep_old (df : DF) : DF :=
  if "_row_key" ∈ df.cols then df else with_row_key df

/-- Line 276: the concatenation whose rows are then de-duplicated. -/
def merge_combo (dfO d0 : DF) (pdf_url circular_date : String) : DF :=
  concatAligned (prep_old dfO) (with_row_key (enrich_new d0 pdf_url circular_date))

/-- Line 277: `combo.drop_duplicates(subset=["pdf_url", "_row_key"])`. -/
def merge_dedup (dfO d0 : DF) (pdf_url circular_date : String) : DF :=
  let combo := merge_combo dfO d0 pdf_url circular_date
  ⟨combo.cols, dedupFirstBy (rowKeyPair combo.cols) combo.rows⟩

/-- Lines 279-281: metadata columns to the front, `_row_key` dropped. -/
def final_cols (cols : List String) : List String :=
  let meta := (["circular_date", "pdf_url"]).filter (fun c => decide (c ∈ cols))
  meta ++ cols.filter (fun c => decide (c ∉ meta) && decide (c ≠ "_row_key"))

/-- Lines 276-281 combined: the ledger frame written back to disk. -/
def merged_ledger (dfO d0 : DF) (pdf_url circular_date : String) : DF :=
  (merge_dedup dfO d0 pdf_url circular_date).select
    (final_cols (merge_dedup dfO d0 pdf_url circular_date).cols)

/-- `df_new is None or df_new.empty` (line 260). -/
def tableEmpty : Option DF → Bool
  | none => true
  | some d => d.rows.isEmpty || d.cols.isEmpty

/-- `append_table_to_excel(df_new, pdf_url, circular_date)` against the
ledger file; result is the new ledger state and the printed lines, or the
message of an uncaught exception (which aborts the run). -/
def append_table_to_excel (dfN : Option DF) (pdf_url circular_date : String)
    (ledger : XFile) : Except String (XFile × List String) :=
  match dfN with
  | none => .ok (ledger, ["[WARN] No table detected to append."])
  | some d0 =>
    if d0.rows.isEmpty || d0.cols.isEmpty then
      .ok (ledger, ["[WARN] No table detected to append."])
    else if "circular_date" ∈ d0.cols then .error "cannot insert circular_date, already exists"
    else if "pdf_url" ∈ d0.cols then .error "cannot insert pdf_url, already exists"
    else
      match ledger with
      | .corrupt => .error "read_excel failed"
      | .ok dfO =>
        .ok (.ok (merged_ledger dfO d0 pdf_url circular_date),
             ["[SUCCESS] Table appended into: " ++ EXCEL_TABLE])
      | .missing =>
        let dN := with_row_key (enrich_new d0 pdf_url circular_date)
        let others := d0.cols.filter (fun c => decide (c ≠ "_row_key"))
        .ok (.ok (dN.select (["circular_date", "pdf_url"] ++ others)),
             ["[SUCCESS] Table appended into: " ++ EXCEL_TABLE])

/-! ## URL checkpoint log (lines 94-122) -/

def url_log_cols : List String := ["timestamp", "circular_date", "pdf_url", "local_pdf"]

/-- Lines 116-118: `df[c] = None` for each of the fixed columns missing
from the frame on disk, in their listed order. -/
def addMissingCols (df : DF) (cs : List String) : DF :=
  cs.foldl (fun d c =>
    if c ∈ d.cols then d else ⟨d.cols ++ [c], d.rows.map (fun r => r ++ [none])⟩) df

/-- `write_url_log(pdf_url, local_pdf, circular_date)` at wall-clock
string `now`: append the one-row frame to the log file, creating it when
absent; an unreadable existing file raises out of the run. -/
def write_url_log (pdf_url local_pdf circular_date now : String) (log : XFile) :
    Except String DF :=
  let newRow : List Cell := [some now, some circular_date, some pdf_url, some local_pdf]
  match log with
  | .corrupt => .error "read_excel failed"
  | .missing => .ok ⟨url_log_cols, [newRow]⟩
  | .ok df => .ok (concatAligned (addMissingCols df url_log_cols) ⟨url_log_cols, [newRow]⟩)

/-- `read_last_logged_url()` (lines 94-103): `None` for a missing file, an
unreadable file (the `except` swallows), a missing `pdf_url` column or an
empty one; else `str` of the column's last entry. -/
def read_last_logged_url (log : XFile) : Option String :=
  match log with
  | .missing => none
  | .corrupt => none
  | .ok df =>
    match df.rows.getLast? with
    | some r => if "pdf_url" ∈ df.cols then some (pyStr (cellOf df.cols r "pdf_url")) else none
    | none => none

/-! ## `fallback_extract_table_with_pdfplumber` (lines 215-251) -/

/-- Python `str.splitlines()` on the line boundaries that can occur in
extracted PDF text (`\r\n` counts once; content after the last boundary is
kept only when nonempty). -/
def isLineBreak (c : Char) : Bool :=
  c = '\n' || c = '\r' || c = '\x0b' || c = '\x0c' ||
  c = '\x1c' || c = '\x1d' || c = '\x1e' || c = '\x85' || c = ' ' || c = ' '

def splitLinesAux (cur : List Char) : List Char → List (List Char)
  | [] => if cur.isEmpty then [] else [cur.reverse]
  | '\r' :: '\n' :: rest => cur.reverse :: splitLinesAux [] rest
  | c :: rest =>
    if isLineBreak c then cur.reverse :: splitLinesAux [] rest
    else splitLinesAux (c :: cur) rest

def splitLinesPy (s : String) : List String :=
  (splitLinesAux [] s.data).map (fun cs => ⟨cs⟩)

/-- Is a maximal whitespace run a separator for `re.split(r'\s{2,}|\t+')`?
Any run of two or more whitespace characters is consumed whole by the
greedy `\s{2,}`; a run of length one splits only when it is a tab. -/
def isSepRun (ws : List Char) : Bool := 2 ≤ ws.length || ws = ['\t']

/-- `re.split(r'\s{2,}|\t+', line)`: `cur` is the current field (reversed),
`ws` the pending maximal whitespace run (reversed).  A non-separator run
(a single non-tab whitespace character) stays inside the field. -/
def reSplitGo (cur ws : List Char) : List Char → List (List Char)
  | [] =>
    if ws.isEmpty then [cur.reverse]
    else if isSepRun ws then [cur.reverse, []]
    else [(ws ++ cur).reverse]
  | c :: rest =>
    if isSpaceC c then reSplitGo cur (c :: ws) rest
    else
      if ws.isEmpty then reSplitGo (c :: cur) [] rest
      else if isSepRun ws then cur.reverse :: reSplitGo [c] [] rest
      else reSplitGo (c :: (ws ++ cur)) [] rest

def reSplitFields (s : String) : List String :=
  (reSplitGo [] [] s.data).map (fun cs => ⟨cs⟩)

/-- Lines 220-228: every line of every page, stripped and split; only
lines with more than one field are kept, in page-and-line order. -/
def keptRows (pages : List String) : List (List String) :=
  (pages.map (fun t => (splitLinesPy t).filterMap (fun line =>
    let ps := reSplitFields (pyStrip line)
    if ps.length > 1 then some ps else none))).flatten

/-- `pd.DataFrame(rows).shape[1]` for ragged rows: the longest row. -/
def maxLenRows (rows : List (List String)) : Nat :=
  rows.foldl (fun n r => max n r.length) 0

/-- A ragged row padded to the frame width with `NaN`. -/
def padRow (n : Nat) (r : List String) : List Cell :=
  r.map some ++ List.replicate (n - r.length) none

def colNames (n : Nat) : List String :=
  (List.range n).map (fun i => "col_" ++ toString (i + 1))

/-- Line 243-245: drop the first row whose first cell equals `h0` — the
first data cell is compared against the promoted header's first field,
`df.index[(df.iloc[:, 0] == r[0])]`. -/
def eraseFirstRowWithHead (h0 : String) : List (List Cell) → List (List Cell)
  | [] => []
  | row :: rest =>
    if row.getD 0 none = some h0 then rest
    else row :: eraseFirstRowWithHead h0 rest

/-- Lines 233-246: columns are `col_i` unless some row among the first ten
has exactly the frame's width; the first such row is promoted to the
header (fields stripped) and the first row whose first cell equals that
row's first field is dropped. -/
def promoteHeader (rows : List (List String)) (n : Nat) : DF :=
  match (rows.take 10).find? (fun r => r.length = n) with
  | some r => ⟨r.map pyStrip, eraseFirstRowWithHead (r.headD "") (rows.map (padRow n))⟩
  | none => ⟨colNames n, rows.map (padRow n)⟩

/-- Line 250: `df.dropna(how='all', axis=1)` — keep a column iff some row
has a value in it. -/
def dropAllNoneCols (df : DF) : DF :=
  let keep := (List.range df.cols.length).filter
    (fun j => df.rows.any (fun r => (r.getD j none).isSome))
  ⟨keep.map (fun j => df.cols.getD j ""), df.rows.map (fun r => keep.map (fun j => r.getD j none))⟩

/-- `fallback_extract_table_with_pdfplumber` as a function of the per-page
texts that `page.extract_text()` returns. -/
def fallback_extract_table_with_pdfplumber (pages : List String) : Option DF :=
  let rows := keptRows pages
  if rows.isEmpty then none
  else some (dropAllNoneCols (promoteHeader rows (maxLenRows rows)))

/-! ## The run controller `main` (lines 294-338) -/

/-- `re.sub(r'[^A-Za-z0-9._-]+', '_', fname)` (line 130): each maximal run
of disallowed characters becomes a single underscore. -/
def okFnameChar (c : Char) : Bool := isAlphaC c || isDigitC c || c = '.' || c = '_' || c = '-'

def sanitizeGo (prevBad : Bool) : List Char → List Char
  | [] => []
  | c :: rest =>
    if okFnameChar c then c :: sanitizeGo false rest
    else if prevBad then sanitizeGo true rest
    else '_' :: sanitizeGo true rest

def sanitize_fname (s : String) : String := ⟨sanitizeGo false s.data⟩

/-- The local file name `download_pdf` produces for a URL (lines 129-131),
which is also `os.path.basename(local_pdf)` at line 311. -/
def local_pdf_name (u : String) : String := sanitize_fname (basenameOfUrl u)

/-- The external world of one run: the URL that link discovery returned,
whether Camelot is importable and what it returned, the page texts
pdfplumber extracts from the downloaded document, and the wall clock.
The HTTP fetches are assumed to succeed (a failure aborts before any
write, out of scope of the claims about stores). -/
structure World where
  latest_url : String
  hasCamelot : Bool
  camelotResult : Option DF
  pages : List String
  pdfText : String
  now : String
deriving DecidableEq, Repr

/-- The two files the program writes. -/
structure Store where
  ledger : XFile
  urlLog : XFile
deriving DecidableEq, Repr

structure RunResult where
  exitCode : Nat
  store : Store
  output : List String
  downloaded : Bool
deriving DecidableEq, Repr

/-- Line 301: `if last_url and last_url.strip() == latest_url.strip()`. -/
def skipCond (latest : String) (log : XFile) : Bool :=
  match read_last_logged_url log with
  | some l => l ≠ "" && pyStrip l = pyStrip latest
  | none => false

/-- Lines 314-323: Camelot when importable, else the pdfplumber fallback. -/
def extract_table (w : World) : Option DF :=
  match (if w.hasCamelot then w.camelotResult else none) with
  | some df => some df
  | none => fallback_extract_table_with_pdfplumber w.pages

/-- `main()` under the `__main__` wrapper: exit code, new file states,
printed lines, and whether the document was downloaded.  `sys.exit(0)` on
the skip path is not an `Exception`, so the wrapper lets it through; any
exception prints `[ERROR]` and exits 1 with whatever had been written. -/
def mainRun (w : World) (st : Store) : RunResult :=
  let latest := w.latest_url
  let out0 := ["[INFO] Latest PDF URL: " ++ latest]
  if skipCond latest st.urlLog then
    ⟨0, st, out0 ++ ["[INFO] Same URL as last run. Skipping download + parse."], false⟩
  else
    let localName := local_pdf_name latest
    let circular_date := extract_date_from_text w.pdfText (some localName)
    match append_table_to_excel (extract_table w) latest circular_date st.ledger with
    | .error e => ⟨1, st, out0 ++ ["[ERROR] " ++ e], true⟩
    | .ok (led', outA) =>
      match write_url_log latest localName circular_date w.now st.urlLog with
      | .error e => ⟨1, ⟨led', st.urlLog⟩, out0 ++ outA ++ ["[ERROR] " ++ e], true⟩
      | .ok log' =>
        ⟨0, ⟨led', .ok log'⟩,
         out0 ++ outA ++ ["[SUCCESS] URL logged: " ++ EXCEL_URL_LOG], true⟩

/-! ## The targeted regex field-capture tier

This tier belongs to the simplified single-value variant of the downloader,
which is not among the sources; it is modelled from the specification. -/

/-- Skip any run of whitespace. -/
def skipWs (l : List Char) : List Char := l.dropWhile isSpaceC

/-- Modelled from the spec: the currency tag in front of an amount
(`₹` / `Rs` / `Rs.` / `INR`, case-insensitive). -/
def currencyTagAt (l : List Char) : Option (List Char) :=
  match l with
  | '₹' :: rest => some rest
  | a :: b :: c :: rest =>
    if lowerStr [a, b, c] = "inr".data then some rest
    else if lowerStr [a, b] = "rs".data then
      some (match c :: rest with
            | '.' :: r2 => r2
            | r2 => r2)
    else none
  | a :: b :: rest => if lowerStr [a, b] = "rs".data then some rest else none
  | _ => none

/-- Modelled from the spec: a numeric amount with thousands separators
stripped before conversion, with an optional decimal part.  The amount is
kept exactly, as a mantissa and a decimal scale: the pair `(m, s)` denotes
`m / 10^s`. -/
def parseAmount (l : List Char) : Option ((Nat × Nat) × List Char) :=
  match l with
  | c :: _ =>
    if isDigitC c then
      let intRun := l.takeWhile (fun d => isDigitC d || d = ',')
      let rest := l.drop intRun.length
      let intVal : Nat := natOfDigits (intRun.filter isDigitC)
      match rest with
      | '.' :: r2 =>
        let fracRun := r2.takeWhile isDigitC
        if fracRun.isEmpty then some ((intVal, 0), rest)
        else some ((intVal * 10 ^ fracRun.length + natOfDigits fracRun, fracRun.length),
                   r2.drop fracRun.length)
      | _ => some ((intVal, 0), rest)
    else none
  | [] => none

/-- Modelled from the spec: the mass-based unit family. -/
def kgUnit (tok : List Char) : Bool :=
  tok = "kg".data || tok = "kilogram".data || tok = "kilograms".data

/-- Modelled from the spec: the bulk-based unit family (`metric ton` is
matched as two words). -/
def mtUnitAt (l : List Char) : Bool :=
  let tok := lowerStr (l.takeWhile isAlphaC)
  if tok = "mt".data || tok = "pmt".data then true
  else if tok = "metric".data then
    let tok2 := lowerStr ((skipWs (l.drop 6)).takeWhile isAlphaC)
    tok2 = "ton".data || tok2 = "tons".data || tok2 = "tonne".data || tok2 = "tonnes".data
  else false

def kgUnitAt (l : List Char) : Bool := kgUnit (lowerStr (l.takeWhile isAlphaC))

/-- Modelled from the spec: a currency-tagged amount followed (possibly
after whitespace and one `/`) by a unit of the given family. -/
def matchTaggedAmountAt (unitAt : List Char → Bool) (l : List Char) : Option (Nat × Nat) := do
  let l1 ← currencyTagAt l
  let (q, l2) ← parseAmount (skipWs l1)
  let l3 := skipWs l2
  let l4 := match l3 with
            | '/' :: r => skipWs r
            | _ => l3
  if unitAt l4 then pure q else none

/-- The rational value of a scanned amount. -/
def amountQ (p : Nat × Nat) : ℚ := (p.1 : ℚ) / (((10 : Nat) ^ p.2 : Nat) : ℚ)

/-- Modelled from the spec: the first mass-unit amount in the text. -/
def scanKg (text : String) : Option (Nat × Nat) :=
  searchPos (matchTaggedAmountAt kgUnitAt) text.data

/-- Modelled from the spec: the first bulk-unit amount in the text. -/
def scanMt (text : String) : Option (Nat × Nat) :=
  searchPos (matchTaggedAmountAt mtUnitAt) text.data

/-- Modelled from the spec: the per-metric-ton field of the extracted
record. -/
def rs_per_mt (text : String) : Option ℚ := (scanMt text).map amountQ

/-- Round to 2 decimal places. -/
def round2 (q : ℚ) : ℚ := ((round (q * 100) : ℤ) : ℚ) / 100

/-- Modelled from the spec: the per-kg field — the first direct mass-unit
match, and when only the bulk-unit amount is present, that amount divided
by 1000 and rounded to 2 decimal places. -/
def rs_per_kg (text : String) : Option ℚ :=
  match scanKg text with
  | some p => some (amountQ p)
  | none =>
    match scanMt text with
    | some p => some (round2 (amountQ p / 1000))
    | none => none

/-! ## General lemmas about the embedding's list operations -/

theorem idxOf'_eq_none (c : String) :
    ∀ l : List String, idxOf' c l = none ↔ c ∉ l := by
  intro l
  induction l with
  | nil => simp [idxOf']
  | cons a l ih =>
    by_cases hac : a = c
    · simp [idxOf', hac]
    · simp [idxOf', hac, Option.map_eq_none', ih, Ne.symm hac]

theorem cellOf_map_self (g : String → Cell) (c : String) :
    ∀ cs : List String, c ∈ cs → cellOf cs (cs.map g) c = g c := by
  intro cs
  induction cs with
  | nil => intro h; cases h
  | cons a l ih =>
    intro h
    by_cases hac : a = c
    · subst hac; simp [cellOf, idxOf']
    · have hc : c ∈ l := by
        rcases List.mem_cons.mp h with h1 | h1
        · exact absurd h1.symm hac
        · exact h1
      have hi := ih hc
      simp only [cellOf, idxOf', hac, if_false, List.map_cons] at hi ⊢
      cases hidx : idxOf' c l with
      | none => exact absurd hc ((idxOf'_eq_none c l).mp hidx)
      | some i =>
        rw [hidx] at hi
        simpa [Option.map_some', List.getD_cons_succ] using hi

theorem cellOf_reindexRow (cols target : List String) (r : List Cell) (c : String)
    (h : c ∈ target) :
    cellOf target (reindexRow cols target r) c = cellOf cols r c :=
  cellOf_map_self (fun c' => cellOf cols r c') c target h

/-! de-duplication (`drop_duplicates`, `keep='first'`) -/

theorem mem_of_mem_dedupAux (f : α → β) [DecidableEq β] :
    ∀ (l : List α) (seen : List β) (x : α), x ∈ dedupAux f seen l → x ∈ l := by
  intro l
  induction l with
  | nil => intro seen x h; cases h
  | cons a l ih =>
    intro seen x h
    simp only [dedupAux] at h
    by_cases hs : f a ∈ seen
    · simp only [hs, if_true] at h
      exact List.mem_cons_of_mem a (ih seen x h)
    · simp only [hs, if_false, List.mem_cons] at h
      rcases h with h | h
      · exact h ▸ List.mem_cons_self a l
      · exact List.mem_cons_of_mem a (ih _ x h)

theorem dedupAux_keys_nodup (f : α → β) [DecidableEq β] :
    ∀ (l : List α) (seen : List β),
      ((dedupAux f seen l).map f).Nodup ∧ ∀ b ∈ (dedupAux f seen l).map f, b ∉ seen := by
  intro l
  induction l with
  | nil => intro seen; simp [dedupAux]
  | cons a l ih =>
    intro seen
    simp only [dedupAux]
    by_cases hs : f a ∈ seen
    · simpa [hs] using ih seen
    · have hrec := ih (f a :: seen)
      simp only [hs, if_false, List.map_cons, List.nodup_cons]
      refine ⟨⟨fun hfa => ?_, hrec.1⟩, fun b hb => ?_⟩
      · exact (hrec.2 (f a) hfa) (List.mem_cons_self _ _)
      · rcases List.mem_cons.mp hb with hb | hb
        · exact hb ▸ hs
        · intro hbs
          exact (hrec.2 b hb) (List.mem_cons_of_mem _ hbs)

theorem mem_dedupAux_of_first (f : α → β) [DecidableEq β] :
    ∀ (l1 : List α) (x : α) (l2 : List α) (seen : List β),
      (∀ y ∈ l1, f y ≠ f x) → f x ∉ seen → x ∈ dedupAux f seen (l1 ++ x :: l2) := by
  intro l1
  induction l1 with
  | nil =>
    intro x l2 seen _ hseen
    simp [dedupAux, hseen]
  | cons a l1 ih =>
    intro x l2 seen hne hseen
    have hax : f a ≠ f x := hne a (List.mem_cons_self _ _)
    have hne' : ∀ y ∈ l1, f y ≠ f x := fun y hy => hne y (List.mem_cons_of_mem _ hy)
    simp only [List.cons_append, dedupAux]
    by_cases hs : f a ∈ seen
    · simp only [hs, if_true]
      exact ih x l2 seen hne' hseen
    · simp only [hs, if_false]
      refine List.mem_cons_of_mem a (ih x l2 _ hne' ?_)
      simp only [List.mem_cons]
      rintro (h | h)
      · exact hax h.symm
      · exact hseen h

theorem dedupFirstBy_keys_nodup (f : α → β) [DecidableEq β] (l : List α) :
    ((dedupFirstBy f l).map f).Nodup := (dedupAux_keys_nodup f l []).1

theorem mem_of_mem_dedupFirstBy (f : α → β) [DecidableEq β] {l : List α} {x : α}
    (h : x ∈ dedupFirstBy f l) : x ∈ l := mem_of_mem_dedupAux f l [] x h

theorem mem_dedupFirstBy_of_first (f : α → β) [DecidableEq β] (l1 : List α) (x : α)
    (l2 : List α) (hne : ∀ y ∈ l1, f y ≠ f x) : x ∈ dedupFirstBy f (l1 ++ x :: l2) :=
  mem_dedupAux_of_first f l1 x l2 [] hne (by simp)

/-! the stable descending sort of `fetch_latest_pdf_url` -/

theorem mem_insertDated (x y : PDate × String) :
    ∀ l, y ∈ insertDated x l → y = x ∨ y ∈ l := by
  intro l
  induction l with
  | nil =>
    intro h
    rcases List.mem_cons.mp h with h | h
    · exact Or.inl h
    · cases h
  | cons a l ih =>
    intro h
    have hdef : insertDated x (a :: l) =
        if a.1.key ≤ x.1.key then x :: a :: l else a :: insertDated x l := rfl
    rw [hdef] at h
    by_cases hk : a.1.key ≤ x.1.key
    · rw [if_pos hk] at h
      rcases List.mem_cons.mp h with h | h
      · exact Or.inl h
      · exact Or.inr h
    · rw [if_neg hk] at h
      rcases List.mem_cons.mp h with h | h
      · exact Or.inr (h ▸ List.mem_cons_self _ _)
      · rcases ih h with h | h
        · exact Or.inl h
        · exact Or.inr (List.mem_cons_of_mem _ h)

theorem mem_sortDatedDesc (y : PDate × String) :
    ∀ l, y ∈ sortDatedDesc l → y ∈ l := by
  intro l
  induction l with
  | nil => intro h; cases h
  | cons a l ih =>
    intro h
    rcases mem_insertDated a y (sortDatedDesc l) h with h | h
    · exact h ▸ List.mem_cons_self _ _
    · exact List.mem_cons_of_mem _ (ih h)

theorem insertDated_eq_cons_of_max (x : PDate × String) (s : List (PDate × String))
    (h : ∀ y ∈ s, y.1.key ≤ x.1.key) : ∃ t, insertDated x s = x :: t := by
  cases s with
  | nil => exact ⟨[], rfl⟩
  | cons a s =>
    have ha : a.1.key ≤ x.1.key := h a (List.mem_cons_self _ _)
    exact ⟨a :: s, by simp [insertDated, ha]⟩

theorem sortDatedDesc_head (l1 : List (PDate × String)) (x : PDate × String) :
    ∀ (l l2 : List (PDate × String)), l = l1 ++ x :: l2 →
      (∀ y ∈ l1, y.1.key < x.1.key) → (∀ y ∈ l, y.1.key ≤ x.1.key) →
      ∃ t, sortDatedDesc l = x :: t := by
  induction l1 with
  | nil =>
    intro l l2 hl _ hall
    subst hl
    show ∃ t, insertDated x (sortDatedDesc l2) = x :: t
    refine insertDated_eq_cons_of_max x _ (fun y hy => ?_)
    exact hall y (List.mem_cons_of_mem _ (mem_sortDatedDesc y l2 hy))
  | cons b l1 ih =>
    intro l l2 hl hpre hall
    subst hl
    have hall' : ∀ y ∈ l1 ++ x :: l2, y.1.key ≤ x.1.key :=
      fun y hy => hall y (List.mem_cons_of_mem _ hy)
    have hpre' : ∀ y ∈ l1, y.1.key < x.1.key :=
      fun y hy => hpre y (List.mem_cons_of_mem _ hy)
    obtain ⟨t, ht⟩ := ih (l1 ++ x :: l2) l2 rfl hpre' hall'
    show ∃ t', insertDated b (sortDatedDesc (l1 ++ x :: l2)) = x :: t'
    rw [ht]
    have hb : b.1.key < x.1.key := hpre b (List.mem_cons_self _ _)
    have : ¬ x.1.key ≤ b.1.key := by omega
    exact ⟨insertDated b t, by simp [insertDated, this]⟩

/-! Python `max` over the candidate list -/

theorem maxDate_spec :
    ∀ (cs : List PDate) (c : PDate),
      maxDate c cs ∈ c :: cs ∧ c.key ≤ (maxDate c cs).key ∧
      ∀ e ∈ cs, e.key ≤ (maxDate c cs).key := by
  intro cs
  induction cs with
  | nil => intro c; simp [maxDate]
  | cons b cs ih =>
    intro c
    have hstep : maxDate c (b :: cs) = maxDate (if c.key < b.key then b else c) cs := rfl
    by_cases hcb : c.key < b.key
    · rw [hstep, if_pos hcb]
      obtain ⟨hmem, hle, hall⟩ := ih b
      refine ⟨List.mem_cons_of_mem _ hmem, by omega, ?_⟩
      intro e he
      rcases List.mem_cons.mp he with h | h
      · subst h; omega
      · exact hall e h
    · rw [hstep, if_neg hcb]
      obtain ⟨hmem, hle, hall⟩ := ih c
      refine ⟨?_, hle, ?_⟩
      · rcases List.mem_cons.mp hmem with h | h
        · rw [h]; exact List.mem_cons_self _ _
        · exact List.mem_cons_of_mem _ (List.mem_cons_of_mem _ h)
      · intro e he
        rcases List.mem_cons.mp he with h | h
        · subst h; omega
        · exact hall e h

/-! ## C10: `read_last_logged_url` is total and returns the last logged URL -/

/-- C10 — `read_last_logged_url` never raises: it returns `None` when the
URL log file is missing, cannot be read as a spreadsheet, or has no
`pdf_url` column or an empty one, and otherwise returns the `pdf_url`
value of the log's last row as a string (it is a total Lean function, so
"never raises" is immediate; the case analysis is proved). -/
theorem read_last_logged_url_total (df : DF) :
    read_last_logged_url .missing = none ∧
    read_last_logged_url .corrupt = none ∧
    (("pdf_url" ∉ df.cols ∨ df.rows = []) → read_last_logged_url (.ok df) = none) ∧
    (∀ r rs, "pdf_url" ∈ df.cols → df.rows = rs ++ [r] →
      read_last_logged_url (.ok df) = some (pyStr (cellOf df.cols r "pdf_url"))) := by
  refine ⟨rfl, rfl, ?_, ?_⟩
  · rintro (h | h)
    · simp only [read_last_logged_url]
      cases hlast : df.rows.getLast? with
      | none => rfl
      | some r => simp [h]
    · simp [read_last_logged_url, h]
  · intro r rs hcol hrows
    simp [read_last_logged_url, hrows, List.getLast?_concat, hcol]

theorem read_last_logged_url_total_witness :
    read_last_logged_url (.ok ⟨["pdf_url"], [[some "u"]]⟩) = some "u" :=
  (read_last_logged_url_total ⟨["pdf_url"], [[some "u"]]⟩).2.2.2
    [some "u"] [] (by decide) rfl

/-! ## C1: the skip path of the run controller -/

/-- C1 — when the freshly discovered URL equals the last logged URL after
trimming surrounding whitespace, the run exits 0 without downloading the
document and with both files untouched; hence the ledger after such a
second run equals the ledger after the first. -/
theorem mainRun_skip_keeps_store (w : World) (st : Store) (l : String)
    (h1 : read_last_logged_url st.urlLog = some l) (h2 : l ≠ "")
    (h3 : pyStrip l = pyStrip w.latest_url) :
    (mainRun w st).exitCode = 0 ∧ (mainRun w st).downloaded = false ∧
    (mainRun w st).store = st ∧ (mainRun w st).store.ledger = st.ledger := by
  have hs : skipCond w.latest_url st.urlLog = true := by
    simp [skipCond, h1, h2, h3]
  simp [mainRun, hs]

theorem mainRun_skip_keeps_store_witness :
    (mainRun ⟨"u", false, none, [], "", "t"⟩ ⟨.missing, .ok ⟨["pdf_url"], [[some "u"]]⟩⟩).exitCode = 0 ∧
    (mainRun ⟨"u", false, none, [], "", "t"⟩ ⟨.missing, .ok ⟨["pdf_url"], [[some "u"]]⟩⟩).downloaded = false ∧
    (mainRun ⟨"u", false, none, [], "", "t"⟩ ⟨.missing, .ok ⟨["pdf_url"], [[some "u"]]⟩⟩).store =
      ⟨.missing, .ok ⟨["pdf_url"], [[some "u"]]⟩⟩ ∧
    (mainRun ⟨"u", false, none, [], "", "t"⟩ ⟨.missing, .ok ⟨["pdf_url"], [[some "u"]]⟩⟩).store.ledger =
      .missing :=
  mainRun_skip_keeps_store ⟨"u", false, none, [], "", "t"⟩
    ⟨.missing, .ok ⟨["pdf_url"], [[some "u"]]⟩⟩ "u" (by decide) (by decide) (by decide)

/-! ## C9: the regex field-capture tier (modelled from the spec) -/

/-- C9 — when only a bulk-unit (PMT/MT) amount is present, the mass-unit
value is derived by dividing the bulk amount by 1000 and rounding to 2
decimals, and the bulk field carries that amount; a direct per-kg amount
takes precedence over the derived value. -/
theorem rs_per_kg_spec (text : String) :
    (∀ p : Nat × Nat, scanKg text = none → scanMt text = some p →
      rs_per_kg text = some (round2 (amountQ p / 1000)) ∧ rs_per_mt text = some (amountQ p)) ∧
    (∀ p : Nat × Nat, scanKg text = some p → rs_per_kg text = some (amountQ p)) := by
  constructor
  · intro p hk hm
    constructor
    · simp [rs_per_kg, hk, hm]
    · simp [rs_per_mt, hm]
  · intro p hk
    simp [rs_per_kg, hk]

theorem rs_per_kg_spec_witness :
    (rs_per_kg "Rs 245000 PMT" = some (round2 (amountQ (245000, 0) / 1000)) ∧
      rs_per_mt "Rs 245000 PMT" = some (amountQ (245000, 0))) ∧
    rs_per_kg "xx ₹ 248.50/kg and ₹ 245,000 PMT yy" = some (amountQ (24850, 2)) :=
  ⟨(rs_per_kg_spec "Rs 245000 PMT").1 (245000, 0) (by decide) (by decide),
   (rs_per_kg_spec "xx ₹ 248.50/kg and ₹ 245,000 PMT yy").2 (24850, 2) (by decide)⟩

/-! ## C4: the latest of several date candidates wins -/

/-- C4 — when the three date patterns produce multiple candidates on a
text blob, `extract_date_from_text` returns the maximum (latest) candidate
formatted as an ISO date string. -/
theorem extract_date_max_candidates (text : String) (fb : Option String)
    (h : 2 ≤ (date_candidates text).length) :
    ∃ dmax ∈ date_candidates text,
      (∀ e ∈ date_candidates text, e.key ≤ dmax.key) ∧
      extract_date_from_text text fb = isoOf dmax := by
  cases hc : date_candidates text with
  | nil => rw [hc] at h; simp at h
  | cons c cs =>
    obtain ⟨hmem, hle, hall⟩ := maxDate_spec cs c
    refine ⟨maxDate c cs, hmem, ?_, ?_⟩
    · intro e he
      rcases List.mem_cons.mp he with h1 | h1
      · subst h1; exact hle
      · exact hall e h1
    · simp [extract_date_from_text, hc]

theorem extract_date_max_candidates_witness :
    ∃ dmax ∈ date_candidates "Circular dated 01/10/2025 effective 16 Oct 2025",
      (∀ e ∈ date_candidates "Circular dated 01/10/2025 effective 16 Oct 2025",
        e.key ≤ dmax.key) ∧
      extract_date_from_text "Circular dated 01/10/2025 effective 16 Oct 2025" none =
        isoOf dmax :=
  extract_date_max_candidates "Circular dated 01/10/2025 effective 16 Oct 2025" none
    (by decide)

/-! ## C3: link discovery returns the latest-dated link -/

/-- C3 — on a non-empty candidate list: if no link's filename carries a
parseable date, the first link in page order is returned; and the first
link whose date attains the maximum (every earlier link has no date or a
strictly earlier one, every link has no date or one at most it) is
returned. -/
theorem fetch_latest_picks_max (links : List String) (hne : links ≠ []) :
    ((∀ v ∈ links, fileDateOfUrl v = none) → fetch_latest_pdf_url links = links.head?) ∧
    (∀ l1 u l2 d, links = l1 ++ u :: l2 → fileDateOfUrl u = some d →
      (∀ v ∈ l1, keyLtB (fileDateOfUrl v) d = true) →
      (∀ v ∈ links, keyLeB (fileDateOfUrl v) d = true) →
      fetch_latest_pdf_url links = some u) := by
  have hempty : links.isEmpty = false := by
    cases links with
    | nil => exact absurd rfl hne
    | cons a l => rfl
  constructor
  · intro hall
    have hdated : links.filterMap (fun u => (fileDateOfUrl u).map (fun d => (d, u))) = [] := by
      rw [List.filterMap_eq_nil_iff]
      intro a ha
      rw [hall a ha]
      rfl
    simp [fetch_latest_pdf_url, hempty, hdated, sortDatedDesc]
  · intro l1 u l2 d hsplit hu hpre hall
    have hdated : links.filterMap (fun v => (fileDateOfUrl v).map (fun dd => (dd, v))) =
        l1.filterMap (fun v => (fileDateOfUrl v).map (fun dd => (dd, v))) ++
          (d, u) :: l2.filterMap (fun v => (fileDateOfUrl v).map (fun dd => (dd, v))) := by
      rw [hsplit, List.filterMap_append]
      simp [hu]
    have hpre' : ∀ y ∈ l1.filterMap (fun v => (fileDateOfUrl v).map (fun dd => (dd, v))),
        y.1.key < d.key := by
      intro y hy
      obtain ⟨v, hv, hfv⟩ := List.mem_filterMap.mp hy
      obtain ⟨dd, hdd, hmap⟩ := Option.map_eq_some'.mp hfv
      have hlt := hpre v hv
      rw [hdd] at hlt
      simp only [keyLtB, decide_eq_true_eq] at hlt
      rw [← hmap]
      exact hlt
    have hall' : ∀ y ∈ links.filterMap (fun v => (fileDateOfUrl v).map (fun dd => (dd, v))),
        y.1.key ≤ d.key := by
      intro y hy
      obtain ⟨v, hv, hfv⟩ := List.mem_filterMap.mp hy
      obtain ⟨dd, hdd, hmap⟩ := Option.map_eq_some'.mp hfv
      have hle := hall v hv
      rw [hdd] at hle
      simp only [keyLeB, decide_eq_true_eq] at hle
      rw [← hmap]
      exact hle
    obtain ⟨t, ht⟩ := sortDatedDesc_head
      (l1.filterMap (fun v => (fileDateOfUrl v).map (fun dd => (dd, v)))) (d, u)
      (links.filterMap (fun v => (fileDateOfUrl v).map (fun dd => (dd, v))))
      (l2.filterMap (fun v => (fileDateOfUrl v).map (fun dd => (dd, v))))
      hdated hpre' hall'
    simp only [fetch_latest_pdf_url, hempty, Bool.false_eq_true, if_false, ht]

theorem fetch_latest_picks_max_witness :
    fetch_latest_pdf_url
      ["https://rashtriyametal.com/files/rmil16102025-pdff.pdf",
       "https://rashtriyametal.com/files/rmil01102025.pdf"] =
      some "https://rashtriyametal.com/files/rmil16102025-pdff.pdf" :=
  (fetch_latest_picks_max
      ["https://rashtriyametal.com/files/rmil16102025-pdff.pdf",
       "https://rashtriyametal.com/files/rmil01102025.pdf"] (by decide)).2
    [] "https://rashtriyametal.com/files/rmil16102025-pdff.pdf"
    ["https://rashtriyametal.com/files/rmil01102025.pdf"] ⟨2025, 10, 16⟩
    rfl (by decide) (by decide) (by decide)

/-! ## C5: the filename fallback recognizes only the DDMMYYYY layout -/

/-- C5 counterexample — the digits of `rmil20251016.pdf` encode the valid
date 2025-10-16 in the full-year `YYYYMMDD` layout, yet both the filename
fallback of `extract_date_from_text` and the link-ranking heuristic of
`fetch_latest_pdf_url` extract no date from it: the DDMMYYYY reading
(day 20, month 25) is tried first and its failure is not recovered. -/
theorem yyyymmdd_filename_yields_no_date :
    validDate 2025 10 16 = true ∧
    extract_date_from_text "" (some "rmil20251016.pdf") = "" ∧
    fnameDate "rmil20251016.pdf" = none := by decide

theorem matchAAt_ne_none_of_matchBAt (l : List Char) (h : matchBAt l ≠ none) :
    matchAAt l ≠ none := by
  unfold matchBAt at h
  split at h
  next a b c d e f rest =>
    by_cases hc : (isDigitC a && isDigitC b && isDigitC c && isDigitC d &&
        isDigitC e && isDigitC f) = true
    · simp only [Bool.and_eq_true] at hc
      obtain ⟨⟨⟨⟨⟨ha, hb⟩, hc'⟩, hd⟩, he⟩, hf⟩ := hc
      have h2 : isDigitC '2' = true := by decide
      have h0 : isDigitC '0' = true := by decide
      simp [matchAAt, h2, h0, ha, hb, hc', hd, he, hf]
    · rw [if_neg hc] at h
      exact absurd rfl h
  next =>
    exact absurd rfl h

theorem searchPos_none_mono (f g : List Char → Option α)
    (himp : ∀ l, g l ≠ none → f l ≠ none) :
    ∀ l, searchPos f l = none → searchPos g l = none := by
  intro l
  induction l with
  | nil => intro _; rfl
  | cons c rest ih =>
    intro h
    simp only [searchPos] at h
    have h1 : f (c :: rest) = none := by
      cases hf : f (c :: rest) with
      | none => rfl
      | some x => rw [hf] at h; exact absurd h (by simp [Option.orElse])
    rw [h1] at h
    have h2 : searchPos f rest = none := by simpa [Option.orElse] using h
    have hg : g (c :: rest) = none := by
      by_contra hgg
      exact (himp _ hgg) h1
    simp only [searchPos, hg]
    simpa [Option.orElse] using ih h2

/-- C5 amended — the effective filename heuristics: (1) when the text has
no candidates and the filename matches `(\d{2})(\d{2})(20\d{2})` with a
valid DDMMYYYY reading, `extract_date_from_text` returns that date;
(2) `fnameDate` returns the valid DDMMYYYY reading of the first eight-digit
run; (3) the `YYYYMMDD` alternative is never consulted: when the DDMMYYYY
pattern finds no match there is no match at all (its pattern matches any
eight consecutive digits, a superset of the YYYYMMDD pattern), so a
filename is scored only through the DDMMYYYY reading and no two-digit-year
shorthand exists anywhere. -/
theorem filename_fallback_is_ddmmyyyy_only (text fname : String) :
    (∀ g1 g2 g3 dte, date_candidates text = [] → fname ≠ "" →
      searchFB fname.data = some (g1, g2, g3) →
      mkDate? (natOfDigits g3) (natOfDigits g2) (natOfDigits g1) = some dte →
      extract_date_from_text text (some fname) = isoOf dte) ∧
    (∀ h1 h2 h3 e, searchA fname.data = some (h1, h2, h3) →
      mkDate? (natOfDigits h3) (natOfDigits h2) (natOfDigits h1) = some e →
      fnameDate fname = some e) ∧
    (searchA fname.data = none → fnameDate fname = none) := by
  refine ⟨?_, ?_, ?_⟩
  · intro g1 g2 g3 dte hcand hfb hs hmk
    simp [extract_date_from_text, hcand, hfb, hs, hmk]
  · intro h1 h2 h3 e hs hmk
    simp [fnameDate, hs, hmk]
  · intro hs
    have hB : searchB fname.data = none :=
      searchPos_none_mono matchAAt matchBAt
        (fun l hgl => matchAAt_ne_none_of_matchBAt l hgl) fname.data hs
    simp [fnameDate, hs, hB]

theorem filename_fallback_is_ddmmyyyy_only_witness :
    extract_date_from_text "" (some "rmil16102025.pdf") = isoOf ⟨2025, 10, 16⟩ ∧
    fnameDate "rmil16102025.pdf" = some ⟨2025, 10, 16⟩ :=
  ⟨(filename_fallback_is_ddmmyyyy_only "" "rmil16102025.pdf").1
      ['1', '6'] ['1', '0'] ['2', '0', '2', '5'] ⟨2025, 10, 16⟩
      (by decide) (by decide) (by decide) (by decide),
   (filename_fallback_is_ddmmyyyy_only "" "rmil16102025.pdf").2.1
      ['1', '6'] ['1', '0'] ['2', '0', '2', '5'] ⟨2025, 10, 16⟩
      (by decide) (by decide)⟩

/-! ## C7: header promotion in the pdfplumber fallback -/

/-- C7 counterexample — on a page whose first kept row shares the promoted
header's first field, the row removed from the data is that earlier
distinct row, not the header row's own occurrence: the extracted table
still contains the header row `["x","b","c"]` as data and has lost
`["x","a"]`, while the claim predicts the data `[["x","a",NaN]]`. -/
theorem header_promotion_removes_wrong_row :
    fallback_extract_table_with_pdfplumber ["x  a\nx  b  c"] =
      some ⟨["x", "b", "c"], [[some "x", some "b", some "c"]]⟩ ∧
    [[some "x", some "b", some "c"]] ≠ ([[some "x", some "a", none]] : List (List Cell)) := by
  decide

/-- C7 amended — only lines splitting into more than one field are kept;
the first row among the first ten whose field count equals the table's
column count is promoted to the header; and the row removed from the data
is the FIRST row whose first field equals the promoted header's first
field (the header row's first occurrence exactly when no earlier kept row
shares its first field).  Stated when the removal leaves no all-empty
column, so that the final `dropna` is the identity. -/
theorem fallback_promotes_first_full_row (pages : List String)
    (rows : List (List String)) (r : List String)
    (hrows : keptRows pages = rows) (hne : rows ≠ [])
    (hfind : (rows.take 10).find? (fun row => row.length = maxLenRows rows) = some r)
    (hkeep : dropAllNoneCols ⟨r.map pyStrip,
        eraseFirstRowWithHead (r.headD "") (rows.map (padRow (maxLenRows rows)))⟩ =
      ⟨r.map pyStrip, eraseFirstRowWithHead (r.headD "") (rows.map (padRow (maxLenRows rows)))⟩) :
    fallback_extract_table_with_pdfplumber pages =
      some ⟨r.map pyStrip,
            eraseFirstRowWithHead (r.headD "") (rows.map (padRow (maxLenRows rows)))⟩ := by
  subst hrows
  have hemp : (keptRows pages).isEmpty = false := by
    cases h : keptRows pages with
    | nil => exact absurd h hne
    | cons a l => rfl
  simp only [fallback_extract_table_with_pdfplumber, hemp, Bool.false_eq_true, if_false,
    promoteHeader, hfind, hkeep]

theorem fallback_promotes_first_full_row_witness :
    fallback_extract_table_with_pdfplumber ["p  q  z\nr  s  t"] =
      some ⟨["p", "q", "z"].map pyStrip,
            eraseFirstRowWithHead (["p", "q", "z"].headD "")
              ([["p", "q", "z"], ["r", "s", "t"]].map
                (padRow (maxLenRows [["p", "q", "z"], ["r", "s", "t"]])))⟩ :=
  fallback_promotes_first_full_row ["p  q  z\nr  s  t"]
    [["p", "q", "z"], ["r", "s", "t"]] ["p", "q", "z"]
    (by decide) (by decide) (by decide) (by decide)

/-! ## C2: de-duplication precedence in the ledger merge -/

/-- C2 counterexample — a merge in which the existing store and the new
batch contain distinct rows with the same `(pdf_url, _row_key)` key: the
stored row has `NaN` in `circular_date` (its recomputed key stringifies it
as `"nan"`), the incoming row has the string `"nan"`.  `drop_duplicates`
keeps the first-seen (stored) row, so the persisted ledger still holds the
`NaN` cell — the last-seen row was dropped, contradicting the claimed
last-seen precedence. -/
theorem merge_keeps_first_not_last :
    append_table_to_excel (some ⟨["colA"], [[some "X"]]⟩) "u" "nan"
        (.ok ⟨["circular_date", "pdf_url", "colA"], [[none, some "u", some "X"]]⟩) =
      .ok (.ok ⟨["circular_date", "pdf_url", "colA"], [[none, some "u", some "X"]]⟩,
           ["[SUCCESS] Table appended into: RMIL_Table.xlsx"]) ∧
    ([[(none : Cell), some "u", some "X"]] : List (List Cell)) ≠
      [[some "nan", some "u", some "X"]] := by
  decide

/-- C2 amended — the merge keeps at most one row per `(pdf_url, _row_key)`
key (the kept keys are pairwise distinct); on a key collision the
FIRST-seen row is kept, i.e. the row at the first occurrence of its key in
the concatenation (existing store rows before new batch rows) survives;
every kept row comes from the concatenation; and the persisted ledger is
the de-duplicated concatenation with metadata promoted and `_row_key`
dropped. -/
theorem merge_dedup_first_seen (dfO d0 : DF) (url date : String)
    (pre post : List (List Cell)) (r : List Cell)
    (h0r : d0.rows.isEmpty = false) (h0c : d0.cols.isEmpty = false)
    (hcd : "circular_date" ∉ d0.cols) (hpu : "pdf_url" ∉ d0.cols)
    (hsplit : (merge_combo dfO d0 url date).rows = pre ++ r :: post)
    (hfirst : ∀ y ∈ pre, rowKeyPair (merge_combo dfO d0 url date).cols y ≠
        rowKeyPair (merge_combo dfO d0 url date).cols r) :
    append_table_to_excel (some d0) url date (.ok dfO) =
      .ok (.ok (merged_ledger dfO d0 url date),
           ["[SUCCESS] Table appended into: " ++ EXCEL_TABLE]) ∧
    ((merge_dedup dfO d0 url date).rows.map
        (rowKeyPair (merge_combo dfO d0 url date).cols)).Nodup ∧
    r ∈ (merge_dedup dfO d0 url date).rows ∧
    ∀ y ∈ (merge_dedup dfO d0 url date).rows, y ∈ (merge_combo dfO d0 url date).rows := by
  refine ⟨?_, ?_, ?_, ?_⟩
  · simp [append_table_to_excel, h0r, h0c, hcd, hpu]
  · exact dedupFirstBy_keys_nodup _ _
  · show r ∈ dedupFirstBy (rowKeyPair (merge_combo dfO d0 url date).cols)
      (merge_combo dfO d0 url date).rows
    rw [hsplit]
    exact mem_dedupFirstBy_of_first _ pre r post hfirst
  · intro y hy
    exact mem_of_mem_dedupFirstBy _ hy

theorem merge_dedup_first_seen_witness :
    append_table_to_excel (some ⟨["colA"], [[some "B"]]⟩) "u2" "d2"
        (.ok ⟨["circular_date", "pdf_url", "colA"], [[some "d1", some "u", some "A"]]⟩) =
      .ok (.ok (merged_ledger ⟨["circular_date", "pdf_url", "colA"],
                  [[some "d1", some "u", some "A"]]⟩ ⟨["colA"], [[some "B"]]⟩ "u2" "d2"),
           ["[SUCCESS] Table appended into: " ++ EXCEL_TABLE]) ∧
    ((merge_dedup ⟨["circular_date", "pdf_url", "colA"], [[some "d1", some "u", some "A"]]⟩
        ⟨["colA"], [[some "B"]]⟩ "u2" "d2").rows.map
      (rowKeyPair (merge_combo ⟨["circular_date", "pdf_url", "colA"],
          [[some "d1", some "u", some "A"]]⟩ ⟨["colA"], [[some "B"]]⟩ "u2" "d2").cols)).Nodup ∧
    [some "d1", some "u", some "A", some "d1|u|A"] ∈
      (merge_dedup ⟨["circular_date", "pdf_url", "colA"], [[some "d1", some "u", some "A"]]⟩
        ⟨["colA"], [[some "B"]]⟩ "u2" "d2").rows ∧
    ∀ y ∈ (merge_dedup ⟨["circular_date", "pdf_url", "colA"],
        [[some "d1", some "u", some "A"]]⟩ ⟨["colA"], [[some "B"]]⟩ "u2" "d2").rows,
      y ∈ (merge_combo ⟨["circular_date", "pdf_url", "colA"],
        [[some "d1", some "u", some "A"]]⟩ ⟨["colA"], [[some "B"]]⟩ "u2" "d2").rows :=
  merge_dedup_first_seen ⟨["circular_date", "pdf_url", "colA"], [[some "d1", some "u", some "A"]]⟩
    ⟨["colA"], [[some "B"]]⟩ "u2" "d2" []
    [[some "d2", some "u2", some "B", some "d2|u2|B"]]
    [some "d1", some "u", some "A", some "d1|u|A"]
    (by decide) (by decide) (by decide) (by decide) (by decide) (by decide)

/-! ## C6: empty extraction — ledger untouched, checkpoint advanced -/

/-- C6 counterexample — extraction produced nothing while the URL-log file
exists but cannot be read: `write_url_log`'s unguarded `read_excel` raises,
the run exits 1 and the checkpoint is NOT advanced, against the claimed
unconditional "non-fatal, checkpoint still advanced". -/
theorem empty_extraction_corrupt_log_aborts :
    extract_table ⟨"u", false, none, [], "", "t"⟩ = none ∧
    (mainRun ⟨"u", false, none, [], "", "t"⟩ ⟨.missing, .corrupt⟩).exitCode = 1 ∧
    (mainRun ⟨"u", false, none, [], "", "t"⟩ ⟨.missing, .corrupt⟩).store.urlLog = .corrupt ∧
    "[WARN] No table detected to append." ∈
      (mainRun ⟨"u", false, none, [], "", "t"⟩ ⟨.missing, .corrupt⟩).output := by
  decide

theorem append_empty_noop (dfN : Option DF) (u c : String) (led : XFile)
    (h : tableEmpty dfN = true) :
    append_table_to_excel dfN u c led = .ok (led, ["[WARN] No table detected to append."]) := by
  cases dfN with
  | none => rfl
  | some d =>
    simp only [tableEmpty] at h
    simp [append_table_to_excel, h]

theorem addMissingCols_mem (cs : List String) :
    ∀ (df : DF) (c : String), c ∈ cs ∨ c ∈ df.cols → c ∈ (addMissingCols df cs).cols := by
  induction cs with
  | nil =>
    intro df c h
    rcases h with h | h
    · cases h
    · exact h
  | cons a cs ih =>
    intro df c h
    have hstep : addMissingCols df (a :: cs) =
        addMissingCols (if a ∈ df.cols then df
          else ⟨df.cols ++ [a], df.rows.map (fun r => r ++ [none])⟩) cs := rfl
    rw [hstep]
    apply ih
    by_cases hdc : a ∈ df.cols
    · rcases h with h | h
      · rcases List.mem_cons.mp h with h1 | h1
        · subst h1; right; simp [hdc]
        · exact Or.inl h1
      · right; simp [hdc, h]
    · rcases h with h | h
      · rcases List.mem_cons.mp h with h1 | h1
        · subst h1; right
          simp only [hdc, if_false]
          exact List.mem_append_right _ (List.mem_singleton.mpr rfl)
        · exact Or.inl h1
      · right
        simp only [hdc, if_false]
        exact List.mem_append_left _ h

theorem write_url_log_advances (p lp cd now : String) (log : XFile) (hl : log ≠ .corrupt) :
    ∃ df', write_url_log p lp cd now log = .ok df' ∧
      "pdf_url" ∈ df'.cols ∧
      ∃ rl, df'.rows.getLast? = some rl ∧
        cellOf df'.cols rl "pdf_url" = some p ∧
        cellOf df'.cols rl "circular_date" = some cd := by
  cases log with
  | corrupt => exact absurd rfl hl
  | missing =>
    refine ⟨⟨url_log_cols, [[some now, some cd, some p, some lp]]⟩, rfl, ?_, ?_⟩
    · show "pdf_url" ∈ url_log_cols
      decide
    · exact ⟨[some now, some cd, some p, some lp], rfl, rfl, rfl⟩
  | ok df =>
    have hpu : "pdf_url" ∈ (addMissingCols df url_log_cols).cols :=
      addMissingCols_mem url_log_cols df "pdf_url" (Or.inl (by decide))
    have hcd : "circular_date" ∈ (addMissingCols df url_log_cols).cols :=
      addMissingCols_mem url_log_cols df "circular_date" (Or.inl (by decide))
    have hcols : (concatAligned (addMissingCols df url_log_cols)
        ⟨url_log_cols, [[some now, some cd, some p, some lp]]⟩).cols =
        (addMissingCols df url_log_cols).cols ++
          url_log_cols.filter (fun c => decide (c ∉ (addMissingCols df url_log_cols).cols)) := rfl
    have hrows : (concatAligned (addMissingCols df url_log_cols)
        ⟨url_log_cols, [[some now, some cd, some p, some lp]]⟩).rows =
        (addMissingCols df url_log_cols).rows.map
            (reindexRow (addMissingCols df url_log_cols).cols
              ((addMissingCols df url_log_cols).cols ++
                url_log_cols.filter (fun c => decide (c ∉ (addMissingCols df url_log_cols).cols)))) ++
          [reindexRow url_log_cols
              ((addMissingCols df url_log_cols).cols ++
                url_log_cols.filter (fun c => decide (c ∉ (addMissingCols df url_log_cols).cols)))
              [some now, some cd, some p, some lp]] := rfl
    refine ⟨_, rfl, ?_, ?_⟩
    · rw [hcols]
      exact List.mem_append_left _ hpu
    · refine ⟨reindexRow url_log_cols
          ((addMissingCols df url_log_cols).cols ++
            url_log_cols.filter (fun c => decide (c ∉ (addMissingCols df url_log_cols).cols)))
          [some now, some cd, some p, some lp], ?_, ?_, ?_⟩
      · rw [hrows]
        exact List.getLast?_concat _
      · rw [hcols, cellOf_reindexRow _ _ _ _ (List.mem_append_left _ hpu)]
        rfl
      · rw [hcols, cellOf_reindexRow _ _ _ _ (List.mem_append_left _ hcd)]
        rfl

/-- C6 amended — when all extraction tiers produce nothing (the extracted
table is `None` or empty) and the URL-log file is absent or readable, the
run emits a warning, exits 0, leaves the ledger file unchanged, and still
advances the checkpoint URL log with the discovered URL and date; when the
URL-log file exists but cannot be read, the final checkpoint write raises
instead and the run exits 1 with the ledger still unchanged (see the
counterexample). -/
theorem empty_extraction_advances_checkpoint (w : World) (st : Store)
    (hskip : skipCond w.latest_url st.urlLog = false)
    (hempty : tableEmpty (extract_table w) = true)
    (hlog : st.urlLog ≠ .corrupt) :
    (mainRun w st).exitCode = 0 ∧
    (mainRun w st).store.ledger = st.ledger ∧
    "[WARN] No table detected to append." ∈ (mainRun w st).output ∧
    ∃ df', (mainRun w st).store.urlLog = .ok df' ∧
      read_last_logged_url (.ok df') = some w.latest_url ∧
      ∃ rl, df'.rows.getLast? = some rl ∧
        cellOf df'.cols rl "circular_date" =
          some (extract_date_from_text w.pdfText (some (local_pdf_name w.latest_url))) := by
  have happ := append_empty_noop (extract_table w) w.latest_url
    (extract_date_from_text w.pdfText (some (local_pdf_name w.latest_url))) st.ledger hempty
  obtain ⟨df', hw, hpu, rl, hlast, hcellp, hcellc⟩ :=
    write_url_log_advances w.latest_url (local_pdf_name w.latest_url)
      (extract_date_from_text w.pdfText (some (local_pdf_name w.latest_url))) w.now
      st.urlLog hlog
  have hrun : mainRun w st =
      ⟨0, ⟨st.ledger, .ok df'⟩,
        ["[INFO] Latest PDF URL: " ++ w.latest_url] ++
          ["[WARN] No table detected to append."] ++
          ["[SUCCESS] URL logged: " ++ EXCEL_URL_LOG], true⟩ := by
    simp only [mainRun, hskip, Bool.false_eq_true, if_false, happ, hw]
  rw [hrun]
  refine ⟨rfl, rfl, ?_, df', rfl, ?_, rl, hlast, hcellc⟩
  · simp
  · simp [read_last_logged_url, hlast, hpu, hcellp, pyStr]

theorem empty_extraction_advances_checkpoint_witness :
    (mainRun ⟨"u", false, none, [], "", "t"⟩ ⟨.missing, .missing⟩).exitCode = 0 ∧
    (mainRun ⟨"u", false, none, [], "", "t"⟩ ⟨.missing, .missing⟩).store.ledger = .missing ∧
    "[WARN] No table detected to append." ∈
      (mainRun ⟨"u", false, none, [], "", "t"⟩ ⟨.missing, .missing⟩).output ∧
    ∃ df', (mainRun ⟨"u", false, none, [], "", "t"⟩ ⟨.missing, .missing⟩).store.urlLog = .ok df' ∧
      read_last_logged_url (.ok df') = some "u" ∧
      ∃ rl, df'.rows.getLast? = some rl ∧
        cellOf df'.cols rl "circular_date" =
          some (extract_date_from_text "" (some (local_pdf_name "u"))) :=
  empty_extraction_advances_checkpoint ⟨"u", false, none, [], "", "t"⟩ ⟨.missing, .missing⟩
    (by decide) (by decide) (by decide)

/-! ## C8: header stability of the ledger merge -/

theorem zip_self_map (l : List (List Cell)) (g : List Cell → Cell) :
    l.zip (l.map g) = l.map (fun r => (r, g r)) := by
  have h := List.zip_map' (id : List Cell → List Cell) g l
  simpa using h

theorem setCol_absent (df : DF) (name : String) (vals : List Cell)
    (h : name ∉ df.cols) :
    DF.setCol df name vals =
      ⟨df.cols ++ [name], (df.rows.zip vals).map (fun p => p.1 ++ [p.2])⟩ := by
  simp only [DF.setCol, (idxOf'_eq_none name df.cols).mpr h]

theorem with_row_key_absent (df : DF) (h : "_row_key" ∉ df.cols) :
    with_row_key df =
      ⟨df.cols ++ ["_row_key"], df.rows.map (fun r => r ++ [some (rowKeyStr r)])⟩ := by
  rw [with_row_key, setCol_absent df _ _ h, zip_self_map, List.map_map]
  rfl

theorem prep_old_absent (df : DF) (h : "_row_key" ∉ df.cols) :
    prep_old df =
      ⟨df.cols ++ ["_row_key"], df.rows.map (fun r => r ++ [some (rowKeyStr r)])⟩ := by
  rw [prep_old, if_neg h, with_row_key_absent df h]

theorem mem_concatAligned_cols (a b : DF) (c : String)
    (h : c ∈ a.cols ∨ c ∈ b.cols) : c ∈ (concatAligned a b).cols := by
  show c ∈ a.cols ++ b.cols.filter (fun x => decide (x ∉ a.cols))
  by_cases hac : c ∈ a.cols
  · exact List.mem_append_left _ hac
  · rcases h with h | h
    · exact absurd h hac
    · exact List.mem_append_right _ (List.mem_filter.mpr ⟨h, by simp [hac]⟩)

theorem rowKeyPair_reindex (cols target : List String) (r : List Cell)
    (hp : "pdf_url" ∈ target) (hk : "_row_key" ∈ target) :
    rowKeyPair target (reindexRow cols target r) = rowKeyPair cols r := by
  simp only [rowKeyPair, cellOf_reindexRow cols target r _ hp,
    cellOf_reindexRow cols target r _ hk]

/-- C8 — merging a batch that carries a payload column `c` absent from the
existing ledger: the persisted ledger's header is the metadata columns
`circular_date`, `pdf_url` in front, then the ledger's other columns in
their old relative order (none dropped), then the batch's new columns —
so `c` is present for all rows; and every pre-existing row survives (under
the ledger invariant that the `(pdf_url, _row_key)` keys of the stored
rows are pairwise distinct) as its label-aligned reindexing, which carries
the empty value `NaN` in column `c`. -/
theorem append_header_stability (dfO d0 : DF) (url date c : String)
    (h0r : d0.rows.isEmpty = false) (h0c : d0.cols.isEmpty = false)
    (hcd : "circular_date" ∉ d0.cols) (hpu : "pdf_url" ∉ d0.cols)
    (hrk0 : "_row_key" ∉ d0.cols) (hO : "_row_key" ∉ dfO.cols)
    (hc : c ∈ d0.cols) (hcO : c ∉ dfO.cols)
    (hkeys : ((prep_old dfO).rows.map (rowKeyPair (prep_old dfO).cols)).Nodup) :
    append_table_to_excel (some d0) url date (.ok dfO) =
      .ok (.ok (merged_ledger dfO d0 url date),
           ["[SUCCESS] Table appended into: " ++ EXCEL_TABLE]) ∧
    (merged_ledger dfO d0 url date).cols =
      "circular_date" :: "pdf_url" ::
        (dfO.cols.filter (fun a => decide (a ∉ (["circular_date", "pdf_url"] : List String))) ++
         d0.cols.filter (fun a => decide (a ∉ (["circular_date", "pdf_url"] : List String)) &&
           decide (a ∉ dfO.cols))) ∧
    c ∈ (merged_ledger dfO d0 url date).cols ∧
    ∀ ro ∈ dfO.rows, ∃ rr ∈ (merged_ledger dfO d0 url date).rows,
      rr = reindexRow (merge_combo dfO d0 url date).cols (merged_ledger dfO d0 url date).cols
            (reindexRow (prep_old dfO).cols (merge_combo dfO d0 url date).cols
              (ro ++ [some (rowKeyStr ro)])) ∧
      cellOf (merged_ledger dfO d0 url date).cols rr c = none := by
  have hcne1 : c ≠ "circular_date" := fun h => hcd (h ▸ hc)
  have hcne2 : c ≠ "pdf_url" := fun h => hpu (h ▸ hc)
  have hcne3 : c ≠ "_row_key" := fun h => hrk0 (h ▸ hc)
  have hprep := prep_old_absent dfO hO
  have hrkE : "_row_key" ∉ ("circular_date" :: "pdf_url" :: d0.cols) := by
    simp only [List.mem_cons]
    rintro (h | h | h)
    · exact absurd h (by decide)
    · exact absurd h (by decide)
    · exact hrk0 h
  have hdN : with_row_key (enrich_new d0 url date) =
      ⟨"circular_date" :: "pdf_url" :: d0.cols ++ ["_row_key"],
       d0.rows.map (fun r =>
         (some date :: some url :: r) ++
           [some (rowKeyStr (some date :: some url :: r))])⟩ := by
    rw [show enrich_new d0 url date =
        ⟨"circular_date" :: "pdf_url" :: d0.cols,
         d0.rows.map (fun r => some date :: some url :: r)⟩ from rfl,
      with_row_key_absent _ hrkE]
    simp only [List.map_map]
    rfl
  have hcdM : "circular_date" ∈ (merge_combo dfO d0 url date).cols := by
    rw [merge_combo]
    exact mem_concatAligned_cols _ _ _ (Or.inr (by rw [hdN]; exact List.mem_cons_self _ _))
  have hpuM : "pdf_url" ∈ (merge_combo dfO d0 url date).cols := by
    rw [merge_combo]
    refine mem_concatAligned_cols _ _ _ (Or.inr ?_)
    rw [hdN]
    exact List.mem_cons_of_mem _ (List.mem_cons_self _ _)
  have hrkM : "_row_key" ∈ (merge_combo dfO d0 url date).cols := by
    rw [merge_combo]
    refine mem_concatAligned_cols _ _ _ (Or.inl ?_)
    rw [hprep]
    exact List.mem_append_right _ (List.mem_singleton.mpr rfl)
  have hcM : c ∈ (merge_combo dfO d0 url date).cols := by
    rw [merge_combo]
    refine mem_concatAligned_cols _ _ _ (Or.inr ?_)
    rw [hdN]
    exact List.mem_cons_of_mem _ (List.mem_cons_of_mem _ (List.mem_append_left _ hc))
  have hmeta : (["circular_date", "pdf_url"]).filter
      (fun x => decide (x ∈ (merge_combo dfO d0 url date).cols)) =
      ["circular_date", "pdf_url"] := by
    simp [List.filter_cons, hcdM, hpuM]
  have e1 : (decide (("circular_date" : String) ∉
      (["circular_date", "pdf_url"] : List String))) = false := by decide
  have e2 : (decide (("pdf_url" : String) ∉
      (["circular_date", "pdf_url"] : List String))) = false := by decide
  have hcombocols : (merge_combo dfO d0 url date).cols =
      (dfO.cols ++ ["_row_key"]) ++
        ("circular_date" :: "pdf_url" :: d0.cols ++ ["_row_key"]).filter
          (fun x => decide (x ∉ dfO.cols ++ ["_row_key"])) := by
    rw [merge_combo, hprep, hdN]
    rfl
  have hfinal : final_cols (merge_combo dfO d0 url date).cols =
      "circular_date" :: "pdf_url" ::
        (dfO.cols.filter (fun a => decide (a ∉ (["circular_date", "pdf_url"] : List String))) ++
         d0.cols.filter (fun a => decide (a ∉ (["circular_date", "pdf_url"] : List String)) &&
           decide (a ∉ dfO.cols))) := by
    simp only [final_cols, hmeta, List.cons_append, List.nil_append]
    congr 1
    rw [hcombocols, List.filter_append, List.filter_filter]
    have h1 : dfO.cols.filter
        (fun x => decide (x ∉ (["circular_date", "pdf_url"] : List String)) &&
          decide (x ≠ "_row_key")) =
        dfO.cols.filter (fun a => decide (a ∉ (["circular_date", "pdf_url"] : List String))) := by
      refine List.filter_congr (fun a ha => ?_)
      have hark : a ≠ "_row_key" := fun h => hO (h ▸ ha)
      simp [hark]
    have h2 : (["_row_key"] : List String).filter
        (fun x => decide (x ∉ (["circular_date", "pdf_url"] : List String)) &&
          decide (x ≠ "_row_key")) = [] := by decide
    have h3 : ("circular_date" :: "pdf_url" :: d0.cols ++ ["_row_key"]).filter
        (fun a => (decide (a ∉ (["circular_date", "pdf_url"] : List String)) &&
            decide (a ≠ "_row_key")) && decide (a ∉ dfO.cols ++ ["_row_key"])) =
        d0.cols.filter (fun a => decide (a ∉ (["circular_date", "pdf_url"] : List String)) &&
          decide (a ∉ dfO.cols)) := by
      rw [show ("circular_date" :: "pdf_url" :: d0.cols ++ ["_row_key"] : List String) =
          "circular_date" :: "pdf_url" :: (d0.cols ++ ["_row_key"]) from rfl,
        List.filter_cons, List.filter_cons]
      simp only [e1, e2, Bool.false_and, Bool.false_eq_true, if_false]
      rw [List.filter_append]
      have hsing : (["_row_key"] : List String).filter
          (fun a => (decide (a ∉ (["circular_date", "pdf_url"] : List String)) &&
              decide (a ≠ "_row_key")) && decide (a ∉ dfO.cols ++ ["_row_key"])) = [] := by
        simp
      rw [hsing, List.append_nil]
      refine List.filter_congr (fun a ha => ?_)
      have ha1 : a ≠ "_row_key" := fun h => hrk0 (h ▸ ha)
      have ha2 : decide (a ≠ "_row_key") = true := by simp [ha1]
      have ha3 : decide (a ∉ dfO.cols ++ ["_row_key"]) = decide (a ∉ dfO.cols) := by
        rw [decide_eq_decide]
        simp [List.mem_append, ha1]
      rw [ha2, Bool.and_true, ha3]
    rw [List.filter_append, h1, h2, List.append_nil, h3]
  have hA : append_table_to_excel (some d0) url date (.ok dfO) =
      .ok (.ok (merged_ledger dfO d0 url date),
           ["[SUCCESS] Table appended into: " ++ EXCEL_TABLE]) := by
    simp [append_table_to_excel, h0r, h0c, hcd, hpu]
  have hmc : (merged_ledger dfO d0 url date).cols =
      final_cols (merge_combo dfO d0 url date).cols := rfl
  have hcF : c ∈ (merged_ledger dfO d0 url date).cols := by
    rw [hmc, hfinal]
    refine List.mem_cons_of_mem _ (List.mem_cons_of_mem _ (List.mem_append_right _ ?_))
    exact List.mem_filter.mpr ⟨hc, by simp [hcne1, hcne2, hcO]⟩
  refine ⟨hA, by rw [hmc, hfinal], hcF, ?_⟩
  intro ro hro
  have hroK : (ro ++ [some (rowKeyStr ro)]) ∈ (prep_old dfO).rows := by
    rw [hprep]
    exact List.mem_map_of_mem _ hro
  have holdrows : (merge_combo dfO d0 url date).rows =
      ((prep_old dfO).rows.map
          (reindexRow (prep_old dfO).cols (merge_combo dfO d0 url date).cols)) ++
        ((with_row_key (enrich_new d0 url date)).rows.map
          (reindexRow (with_row_key (enrich_new d0 url date)).cols
            (merge_combo dfO d0 url date).cols)) := rfl
  have hrcmemOld : reindexRow (prep_old dfO).cols (merge_combo dfO d0 url date).cols
      (ro ++ [some (rowKeyStr ro)]) ∈
      (prep_old dfO).rows.map
        (reindexRow (prep_old dfO).cols (merge_combo dfO d0 url date).cols) :=
    List.mem_map_of_mem _ hroK
  have hkeymap : ((prep_old dfO).rows.map
        (reindexRow (prep_old dfO).cols (merge_combo dfO d0 url date).cols)).map
        (rowKeyPair (merge_combo dfO d0 url date).cols) =
      (prep_old dfO).rows.map (rowKeyPair (prep_old dfO).cols) := by
    rw [List.map_map]
    exact List.map_congr_left (fun r _ => rowKeyPair_reindex _ _ r hpuM hrkM)
  obtain ⟨s, t, hst⟩ := List.append_of_mem hrcmemOld
  have hdisj : ∀ y ∈ s,
      rowKeyPair (merge_combo dfO d0 url date).cols y ≠
        rowKeyPair (merge_combo dfO d0 url date).cols
          (reindexRow (prep_old dfO).cols (merge_combo dfO d0 url date).cols
            (ro ++ [some (rowKeyStr ro)])) := by
    intro y hy heq
    have hnd : ((s ++ reindexRow (prep_old dfO).cols (merge_combo dfO d0 url date).cols
        (ro ++ [some (rowKeyStr ro)]) :: t).map
          (rowKeyPair (merge_combo dfO d0 url date).cols)).Nodup := by
      rw [← hst, hkeymap]
      exact hkeys
    rw [List.map_append, List.map_cons] at hnd
    exact List.disjoint_of_nodup_append hnd (List.mem_map_of_mem _ hy)
      (by rw [heq]; exact List.mem_cons_self _ _)
  have hsplitAll : (merge_combo dfO d0 url date).rows =
      s ++ reindexRow (prep_old dfO).cols (merge_combo dfO d0 url date).cols
          (ro ++ [some (rowKeyStr ro)]) ::
        (t ++ ((with_row_key (enrich_new d0 url date)).rows.map
          (reindexRow (with_row_key (enrich_new d0 url date)).cols
            (merge_combo dfO d0 url date).cols))) := by
    rw [holdrows, hst, List.append_assoc, List.cons_append]
  have hrcmem : reindexRow (prep_old dfO).cols (merge_combo dfO d0 url date).cols
      (ro ++ [some (rowKeyStr ro)]) ∈ (merge_dedup dfO d0 url date).rows := by
    show reindexRow (prep_old dfO).cols (merge_combo dfO d0 url date).cols
        (ro ++ [some (rowKeyStr ro)]) ∈
      dedupFirstBy (rowKeyPair (merge_combo dfO d0 url date).cols)
        (merge_combo dfO d0 url date).rows
    rw [hsplitAll]
    exact mem_dedupFirstBy_of_first _ s _ _ hdisj
  have hmergedrows : (merged_ledger dfO d0 url date).rows =
      (merge_dedup dfO d0 url date).rows.map
        (reindexRow (merge_combo dfO d0 url date).cols
          (merged_ledger dfO d0 url date).cols) := rfl
  refine ⟨reindexRow (merge_combo dfO d0 url date).cols (merged_ledger dfO d0 url date).cols
      (reindexRow (prep_old dfO).cols (merge_combo dfO d0 url date).cols
        (ro ++ [some (rowKeyStr ro)])), ?_, rfl, ?_⟩
  · rw [hmergedrows]
    exact List.mem_map_of_mem _ hrcmem
  · rw [cellOf_reindexRow _ _ _ _ hcF, cellOf_reindexRow _ _ _ _ hcM, hprep]
    simp only [cellOf]
    rw [(idxOf'_eq_none c _).mpr (by simp [List.mem_append, hcO, hcne3])]

theorem append_header_stability_witness :
    append_table_to_excel (some ⟨["colB"], [[some "B"]]⟩) "u2" "d2"
        (.ok ⟨["circular_date", "pdf_url", "colA"], [[some "d1", some "u", some "A"]]⟩) =
      .ok (.ok (merged_ledger ⟨["circular_date", "pdf_url", "colA"],
                  [[some "d1", some "u", some "A"]]⟩ ⟨["colB"], [[some "B"]]⟩ "u2" "d2"),
           ["[SUCCESS] Table appended into: " ++ EXCEL_TABLE]) ∧
    (merged_ledger ⟨["circular_date", "pdf_url", "colA"], [[some "d1", some "u", some "A"]]⟩
        ⟨["colB"], [[some "B"]]⟩ "u2" "d2").cols =
      "circular_date" :: "pdf_url" ::
        ((["circular_date", "pdf_url", "colA"] : List String).filter
            (fun a => decide (a ∉ (["circular_date", "pdf_url"] : List String))) ++
         (["colB"] : List String).filter
            (fun a => decide (a ∉ (["circular_date", "pdf_url"] : List String)) &&
              decide (a ∉ (["circular_date", "pdf_url", "colA"] : List String)))) ∧
    "colB" ∈ (merged_ledger ⟨["circular_date", "pdf_url", "colA"],
        [[some "d1", some "u", some "A"]]⟩ ⟨["colB"], [[some "B"]]⟩ "u2" "d2").cols ∧
    ∀ ro ∈ ([[some "d1", some "u", some "A"]] : List (List Cell)),
      ∃ rr ∈ (merged_ledger ⟨["circular_date", "pdf_url", "colA"],
          [[some "d1", some "u", some "A"]]⟩ ⟨["colB"], [[some "B"]]⟩ "u2" "d2").rows,
        rr = reindexRow (merge_combo ⟨["circular_date", "pdf_url", "colA"],
              [[some "d1", some "u", some "A"]]⟩ ⟨["colB"], [[some "B"]]⟩ "u2" "d2").cols
            (merged_ledger ⟨["circular_date", "pdf_url", "colA"],
              [[some "d1", some "u", some "A"]]⟩ ⟨["colB"], [[some "B"]]⟩ "u2" "d2").cols
            (reindexRow (prep_old ⟨["circular_date", "pdf_url", "colA"],
                [[some "d1", some "u", some "A"]]⟩).cols
              (merge_combo ⟨["circular_date", "pdf_url", "colA"],
                [[some "d1", some "u", some "A"]]⟩ ⟨["colB"], [[some "B"]]⟩ "u2" "d2").cols
              (ro ++ [some (rowKeyStr ro)])) ∧
        cellOf (merged_ledger ⟨["circular_date", "pdf_url", "colA"],
            [[some "d1", some "u", some "A"]]⟩ ⟨["colB"], [[some "B"]]⟩ "u2" "d2").cols
          rr "colB" = none :=
  append_header_stability ⟨["circular_date", "pdf_url", "colA"],
      [[some "d1", some "u", some "A"]]⟩ ⟨["colB"], [[some "B"]]⟩ "u2" "d2" "colB"
    (by decide) (by decide) (by decide) (by decide) (by decide) (by decide)
    (by decide) (by decide) (by decide)

end RMIL
